import Mathlib

/-!
Verification development for the RDS slow-SQL monitor repository
(`huaweiyun_rds/huawei_rds_slow_sql_monitor.py` and
`aliyun_rds/aliyun_rds_slow_sql_monitor.py`).

The Python source is shallowly embedded: pure string processing becomes Lean
functions over `List Char` / `String`; Python `datetime` values become the
`PDateTime` structure below (civil fields plus an optional UTC offset in
minutes, `none` meaning timezone-naive); code that can raise becomes
`Except String`-valued functions; `float` metric values become exact
decimals (`DecNum`; the metric strings matched by the source regex are plain
decimal literals, on which `float` equality agrees with exact decimal
equality at the precisions appearing here).
-/

/-- Membership of whitespace characters recognised by both Python `str.strip`
on the characters occurring in slow logs and by the regex class used in the
source (space, tab, newline, carriage return, vertical tab, form feed). -/
def isPySpace (c : Char) : Bool :=
  c = ' ' || c = '\t' || c = '\n' || c = '\r' || c = '\x0b' || c = '\x0c'

/-- Model of Python `str.strip()` (restricted to ASCII whitespace). -/
def pyStrip (s : String) : String :=
  ⟨((s.data.dropWhile isPySpace).reverse.dropWhile isPySpace).reverse⟩

/-- Check whether the second list is an initial segment of the first. -/
def listStartsWith : List Char → List Char → Bool
  | _, [] => true
  | [], _ :: _ => false
  | a :: as, b :: bs => a = b && listStartsWith as bs

/-- Helper for substring containment (Python `pat in s`). -/
def containsAux (pat : List Char) : List Char → Bool
  | [] => pat.isEmpty
  | c :: rest => listStartsWith (c :: rest) pat || containsAux pat rest

/-- Python substring test `pat in s`. -/
def strContains (s pat : String) : Bool := containsAux pat.data s.data

/-- Python `s.startswith(pre)` (a char-list computation so that proofs can
evaluate it). -/
def strStartsWith (s pre : String) : Bool := listStartsWith s.data pre.data

/-- Helper for `splitOnSub`, fuelled recursion over the character list.
`acc` holds the current segment reversed. -/
def splitAux (sep : List Char) : Nat → List Char → List Char → List (List Char)
  | _, acc, [] => [acc.reverse]
  | 0, acc, rest => [acc.reverse ++ rest]
  | fuel + 1, acc, c :: rest =>
    if listStartsWith (c :: rest) sep then
      acc.reverse :: splitAux sep fuel [] ((c :: rest).drop sep.length)
    else
      splitAux sep fuel (c :: acc) rest

/-- Model of Python `s.split(sep)` for a non-empty separator: split on every
non-overlapping occurrence, left to right. -/
def splitOnSub (s sep : String) : List String :=
  (splitAux sep.data (s.data.length + 1) [] s.data).map (fun l => ⟨l⟩)

/-- Numeric value of a list of decimal digit characters. -/
def natOfDigits (cs : List Char) : Nat :=
  cs.foldl (fun n c => n * 10 + (c.toNat - 48)) 0

/-- Exact non-negative decimal number: the value `mantissa / 10 ^ exp10`.
This represents the `float` metric values of the source: on the decimal
literals captured by the metric regex at the precisions occurring in slow
logs, Python `float` equality agrees with equality of the denoted rationals,
i.e. with structural equality of the normalized representation. -/
structure DecNum where
  mantissa : Nat
  exp10 : Nat
deriving DecidableEq, Repr

/-- Strip trailing decimal zeros so that equal values are structurally equal. -/
def normDec (m : Nat) : Nat → DecNum
  | 0 => ⟨m, 0⟩
  | e + 1 => if m % 10 = 0 then normDec (m / 10) e else ⟨m, e + 1⟩

/-- Rational value denoted by a `DecNum`. -/
def DecNum.toRat (d : DecNum) : Rat := (d.mantissa : Rat) / (10 : Rat) ^ d.exp10

/-- Model of Python `float(v)` restricted to the strings the source regex can
capture for metric values (one or more characters from `[0-9.]`): the
conversion succeeds exactly when the string has at least one digit and at
most one dot, and then denotes the evident decimal value. -/
def pyFloatD (s : String) : Option DecNum :=
  let cs := s.data
  if cs.isEmpty then none
  else if cs.all (fun c => c.isDigit || c = '.') then
    if cs.count '.' ≤ 1 && cs.any Char.isDigit then
      let ip := cs.takeWhile Char.isDigit
      let rest := cs.drop ip.length
      let frac := match rest with | [] => ([] : List Char) | _ :: f => f
      some (normDec (natOfDigits ip * 10 ^ frac.length + natOfDigits frac) frac.length)
    else none
  else none

/-- Model of Python `int(float(v))` applied to a successfully converted
non-negative metric value: truncation (= floor for non-negatives, which is
`Nat` division here). -/
def decToPyInt (d : DecNum) : Nat := d.mantissa / 10 ^ d.exp10

/-- Word character of the source regex `\w` (ASCII subset). -/
def isWordChar (c : Char) : Bool := c.isAlphanum || c = '_'

/-- Character class `[\d.]` of the source metric regex. -/
def isDigitDot (c : Char) : Bool := c.isDigit || c = '.'

/-- Model of `re.findall(r'(\w+):\s*([\d.]+)', line)`: scan left to right,
at each position try (greedy word run, literal colon, greedy spaces, greedy
non-empty digit-or-dot run); on success emit the two captures and resume
after the match, otherwise advance one character. -/
def findallAux : Nat → List Char → List (String × String)
  | 0, _ => []
  | _, [] => []
  | fuel + 1, c :: rest =>
    if isWordChar c then
      let w := c :: rest.takeWhile isWordChar
      let afterW := rest.dropWhile isWordChar
      match afterW with
      | ':' :: r2 =>
        let r3 := r2.dropWhile isPySpace
        let v := r3.takeWhile isDigitDot
        if v.isEmpty then findallAux fuel rest
        else (⟨w⟩, ⟨v⟩) :: findallAux fuel (r3.drop v.length)
      | _ => findallAux fuel rest
    else findallAux fuel rest

/-- Entry point of the metric key/value scanner. -/
def findallKV (s : String) : List (String × String) :=
  findallAux s.data.length s.data

/-- Model of `re.search(lit ++ r'\s*(RUN+)', s)` for a literal `lit` followed
by optional spaces and a non-empty greedy run of `valid` characters
(`\w+` for `Schema:`, `[^\s]+` for `Start:`/`End:`): returns the first such
capture scanning left to right. -/
def searchLitAux (lit : List Char) (valid : Char → Bool) : Nat → List Char → Option String
  | 0, _ => none
  | fuel + 1, cs =>
    if listStartsWith cs lit then
      let r2 := (cs.drop lit.length).dropWhile isPySpace
      let v := r2.takeWhile valid
      if v.isEmpty then
        match cs with
        | [] => none
        | _ :: rest => searchLitAux lit valid fuel rest
      else some ⟨v⟩
    else
      match cs with
      | [] => none
      | _ :: rest => searchLitAux lit valid fuel rest

/-- Entry point of the literal-then-capture searcher. -/
def searchLit (s lit : String) (valid : Char → Bool) : Option String :=
  searchLitAux lit.data valid (s.data.length + 1) s.data

/-- Civil date triple (what Python `datetime.date` compares). -/
structure PDate where
  year : Nat
  month : Nat
  day : Nat
deriving DecidableEq, Repr

/-- Model of a Python `datetime`: civil fields plus an optional UTC offset in
minutes (`none` = timezone-naive, `some o` = aware with fixed offset `o`). -/
structure PDateTime where
  year : Nat
  month : Nat
  day : Nat
  hour : Nat
  minute : Nat
  second : Nat
  off : Option Int
deriving DecidableEq, Repr

/-- Civil date of a datetime, as Python `datetime.date()` (no conversion). -/
def dateOf (d : PDateTime) : PDate := ⟨d.year, d.month, d.day⟩

/-- Gregorian leap-year test. -/
def isLeap (y : Nat) : Bool := y % 4 = 0 && (y % 100 ≠ 0 || y % 400 = 0)

/-- Length of a month, as validated by Python `datetime`. -/
def daysInMonth (y m : Nat) : Nat :=
  if m = 2 then (if isLeap y then 29 else 28)
  else if m = 4 || m = 6 || m = 9 || m = 11 then 30
  else 31

/-- Days from civil date to the 1970-01-01 epoch (standard civil-calendar
day-count algorithm over `Int`). -/
def daysFromCivil (y m d : Int) : Int :=
  let y2 := if m ≤ 2 then y - 1 else y
  let era := (if 0 ≤ y2 then y2 else y2 - 399) / 400
  let yoe := y2 - era * 400
  let mp := (m + 9) % 12
  let doy := (153 * mp + 2) / 5 + d - 1
  let doe := yoe * 365 + yoe / 4 - yoe / 100 + doy
  era * 146097 + doe - 719468

/-- Civil seconds of a datetime (ignoring its offset). -/
def civilSecs (d : PDateTime) : Int :=
  daysFromCivil d.year d.month d.day * 86400
    + d.hour * 3600 + d.minute * 60 + d.second

/-- Comparison key of a datetime: Python compares two naive datetimes by
civil value and two aware datetimes by UTC instant; both orders coincide with
the order of this key on same-awareness valid datetimes. -/
def dtKey (d : PDateTime) : Int := civilSecs d - 60 * d.off.getD 0

/-- Model of Python `a > b` on datetimes: raises `TypeError` when exactly one
side is naive, otherwise compares by `dtKey`. -/
def pyGT (a b : PDateTime) : Except String Bool :=
  if a.off.isSome = b.off.isSome then .ok (decide (dtKey b < dtKey a))
  else .error "TypeError: cannot compare offset-naive and offset-aware datetimes"

/-- Parse the 10 leading characters `YYYY-MM-DD` with calendar validation,
as Python `datetime.fromisoformat` does for the date part. -/
def parseDate10 : List Char → Option (Nat × Nat × Nat)
  | [a, b, c, d, s1, e, f, s2, g, h] =>
    if s1 = '-' && s2 = '-' && [a, b, c, d, e, f, g, h].all Char.isDigit then
      let y := natOfDigits [a, b, c, d]
      let m := natOfDigits [e, f]
      let dd := natOfDigits [g, h]
      if 1 ≤ m && m ≤ 12 && 1 ≤ dd && dd ≤ daysInMonth y m then some (y, m, dd)
      else none
    else none
  | _ => none

/-- Parse a time-of-day of the form `HH`, `HH:MM` or `HH:MM:SS` with range
validation (the fractionless subset of what `fromisoformat` accepts; the
slow-log time strings at issue carry no fraction). -/
def parseHMS : List Char → Option (Nat × Nat × Nat)
  | [a, b] =>
    if a.isDigit && b.isDigit && natOfDigits [a, b] < 24 then
      some (natOfDigits [a, b], 0, 0)
    else none
  | [a, b, ':', c, d] =>
    if a.isDigit && b.isDigit && c.isDigit && d.isDigit
        && natOfDigits [a, b] < 24 && natOfDigits [c, d] < 60 then
      some (natOfDigits [a, b], natOfDigits [c, d], 0)
    else none
  | [a, b, ':', c, d, ':', e, f] =>
    if a.isDigit && b.isDigit && c.isDigit && d.isDigit && e.isDigit && f.isDigit
        && natOfDigits [a, b] < 24 && natOfDigits [c, d] < 60 && natOfDigits [e, f] < 60 then
      some (natOfDigits [a, b], natOfDigits [c, d], natOfDigits [e, f])
    else none
  | _ => none

/-- Model of Python `datetime.fromisoformat` on the grammar occurring in slow
logs: `YYYY-MM-DD`, or `YYYY-MM-DD` + one separator character + a time of day
optionally followed by a fixed offset `±HH:MM`.  A datetime without an offset
suffix is timezone-naive (`off = none`); with a suffix it is aware. -/
def fromiso (s : String) : Option PDateTime :=
  let cs := s.data
  match parseDate10 (cs.take 10) with
  | none => none
  | some (y, m, d) =>
    match cs.drop 10 with
    | [] => some ⟨y, m, d, 0, 0, 0, none⟩
    | _ :: timeChars =>
      if timeChars.isEmpty then none
      else
        let tpart := timeChars.takeWhile (fun c => c ≠ '+' && c ≠ '-')
        let opart := timeChars.drop tpart.length
        match parseHMS tpart with
        | none => none
        | some (h, mi, sec) =>
          match opart with
          | [] => some ⟨y, m, d, h, mi, sec, none⟩
          | sign :: ocs =>
            match parseHMS ocs with
            | some (oh, om, 0) =>
              if ocs.length = 5 then
                let mag : Int := oh * 60 + om
                some ⟨y, m, d, h, mi, sec, some (if sign = '+' then mag else -mag)⟩
              else none
            | _ => none

example : fromiso "2024-05-01T02:00:00" =
    some ⟨2024, 5, 1, 2, 0, 0, none⟩ := by decide

example : fromiso "2024-05-01T02:00:00+08:00" =
    some ⟨2024, 5, 1, 2, 0, 0, some 480⟩ := by decide

example : fromiso "garbage" = none := by decide

example : pyFloatD "3.500000" = some ⟨35, 1⟩ := by decide

example : pyFloatD "1.2.3" = none := by decide

example : DecNum.toRat ⟨35, 1⟩ = 35 / 10 := by norm_num [DecNum.toRat]

example : splitOnSub "# Time: 2024-05-01T02:00:00" "Time: " =
    ["# ", "2024-05-01T02:00:00"] := by decide

example : findallKV "# Query_time: 3.500000  Lock_time: 0.000000 Rows_sent: 1  Rows_examined: 100" =
    [("Query_time", "3.500000"), ("Lock_time", "0.000000"),
     ("Rows_sent", "1"), ("Rows_examined", "100")] := by decide

/-- Normalized slow-query record, mirroring the `SlowQuery` dataclass of the
source (float fields as exact decimals, datetimes as `PDateTime`). -/
structure SlowQuery where
  timestamp : PDateTime
  user_host : String
  query_time : DecNum
  lock_time : DecNum
  rows_sent : Nat
  rows_examined : Nat
  thread_id : String
  db_name : String
  sql_text : String
  start_time : PDateTime
  end_time : PDateTime
  full_scan : Bool
  tmp_table : Bool
  tmp_table_on_disk : Bool
deriving DecidableEq, Repr

/-- The `current_query` dictionary of `parse_slow_log`: a timestamp is always
present (the dictionary is only created from a parsed time marker), every
other key is optional. -/
structure Accum where
  timestamp : PDateTime
  user_host : Option String := none
  query_time : Option DecNum := none
  lock_time : Option DecNum := none
  rows_sent : Option Nat := none
  rows_examined : Option Nat := none
  thread_id : Option String := none
  db_name : Option String := none
  sql_text : Option String := none
  start_time : Option PDateTime := none
  end_time : Option PDateTime := none
  full_scan : Option Bool := none
  tmp_table : Option Bool := none
  tmp_table_on_disk : Option Bool := none
deriving DecidableEq, Repr

/-- Fresh accumulator seeded with a parsed time marker. -/
def initAccum (ts : PDateTime) : Accum := { timestamp := ts }

/-- Embedding of `_create_slow_query`: defaults for missing keys. -/
def createSlowQuery (q : Accum) : SlowQuery :=
  { timestamp := q.timestamp
    user_host := q.user_host.getD ""
    query_time := q.query_time.getD ⟨0, 0⟩
    lock_time := q.lock_time.getD ⟨0, 0⟩
    rows_sent := q.rows_sent.getD 0
    rows_examined := q.rows_examined.getD 0
    thread_id := q.thread_id.getD ""
    db_name := q.db_name.getD ""
    sql_text := q.sql_text.getD ""
    start_time := q.start_time.getD q.timestamp
    end_time := q.end_time.getD q.timestamp
    full_scan := q.full_scan.getD false
    tmp_table := q.tmp_table.getD false
    tmp_table_on_disk := q.tmp_table_on_disk.getD false }

/-- Embedding of `_is_valid_query`: the record's civil date must equal the
current civil day (the source additionally checks that a timestamp key is
present, which in this embedding holds by construction). -/
def isValidQuery (q : Accum) (today : PDate) : Bool :=
  dateOf q.timestamp = today

/-- Parser state: completed records, the current accumulator, the current SQL
text buffer. -/
structure PState where
  acc : List SlowQuery
  cur : Option Accum
  sql : List String
deriving Repr

/-- Flushing the previous query on a time marker (and at end of input): if a
current accumulator exists and SQL text was collected, set its `sql_text`,
validate it against the current day, and append it when valid. -/
def flushCur (today : PDate) (st : PState) : List SlowQuery :=
  match st.cur with
  | none => st.acc
  | some a =>
    if st.sql.isEmpty then st.acc
    else
      if isValidQuery { a with sql_text := some (String.intercalate "\n" st.sql) } today then
        st.acc ++ [createSlowQuery { a with sql_text := some (String.intercalate "\n" st.sql) }]
      else st.acc

/-- Embedding of the key/value assignment loop of the `# Query_time:` branch:
metric conversions can raise `ValueError` (propagated as `.error`). -/
def applyPairs : Accum → List (String × String) → Except String Accum
  | a, [] => .ok a
  | a, (k, v) :: rest =>
    if k = "Query_time" then
      match pyFloatD v with
      | some q => applyPairs { a with query_time := some q } rest
      | none => .error "ValueError: could not convert string to float"
    else if k = "Lock_time" then
      match pyFloatD v with
      | some q => applyPairs { a with lock_time := some q } rest
      | none => .error "ValueError: could not convert string to float"
    else if k = "Rows_sent" then
      match pyFloatD v with
      | some q => applyPairs { a with rows_sent := some (decToPyInt q) } rest
      | none => .error "ValueError: could not convert string to float"
    else if k = "Rows_examined" then
      match pyFloatD v with
      | some q => applyPairs { a with rows_examined := some (decToPyInt q) } rest
      | none => .error "ValueError: could not convert string to float"
    else if k = "Thread_id" then
      applyPairs { a with thread_id := some v } rest
    else
      applyPairs a rest

/-- Schema extraction of the `# Query_time:` branch (pure). -/
def applySchema (line : String) (a : Accum) : Accum :=
  match searchLit line "Schema:" isWordChar with
  | some w => { a with db_name := some w }
  | none => a

/-- Start extraction of the `# Query_time:` branch; the `fromisoformat` call
on the captured value can raise. -/
def applyStartE (line : String) (a : Accum) : Except String Accum :=
  match searchLit line "Start:" (fun c => !isPySpace c) with
  | some v =>
    match fromiso v with
    | some t => .ok { a with start_time := some t }
    | none => .error "ValueError: invalid isoformat string"
  | none => .ok a

/-- End extraction of the `# Query_time:` branch; the `fromisoformat` call
on the captured value can raise. -/
def applyEndE (line : String) (a : Accum) : Except String Accum :=
  match searchLit line "End:" (fun c => !isPySpace c) with
  | some v =>
    match fromiso v with
    | some t => .ok { a with end_time := some t }
    | none => .error "ValueError: invalid isoformat string"
  | none => .ok a

/-- Schema / Start / End extraction of the `# Query_time:` branch, in source
order. -/
def applyTimes (line : String) (a : Accum) : Except String Accum :=
  match applyStartE line (applySchema line a) with
  | .error e => .error e
  | .ok a3 => applyEndE line a3

/-- Embedding of one iteration of the line loop of `parse_slow_log`. -/
def stepLine (today : PDate) (st : PState) (rawLine : String) : Except String PState :=
  let line := pyStrip rawLine
  if line.data.isEmpty then .ok st
  else if strStartsWith line "# Time:" then
    let acc2 := flushCur today st
    match splitOnSub line "Time: " with
    | _ :: p1 :: _ =>
      match fromiso p1 with
      | some ts => .ok ⟨acc2, some (initAccum ts), []⟩
      | none => .error "ValueError: invalid isoformat string"
    | _ => .error "IndexError: list index out of range"
  else if strStartsWith line "# User@Host:" then
    match st.cur with
    | some a =>
      match splitOnSub line "# User@Host: " with
      | _ :: p1 :: _ => .ok { st with cur := some { a with user_host := some p1 } }
      | _ => .error "IndexError: list index out of range"
    | none => .ok st
  else if strStartsWith line "# Query_time:" then
    match st.cur with
    | some a =>
      match applyPairs a (findallKV line) with
      | .error e => .error e
      | .ok a2 =>
        match applyTimes line a2 with
        | .error e => .error e
        | .ok a3 => .ok { st with cur := some a3 }
    | none => .ok st
  else if strStartsWith line "# QC_Hit:" then
    match st.cur with
    | some a =>
      .ok { st with cur := some { a with
        full_scan := some (strContains line "Full_scan: Yes")
        tmp_table := some (strContains line "Tmp_table: Yes")
        tmp_table_on_disk := some (strContains line "Tmp_table_on_disk: Yes") } }
    | none => .ok st
  else if !strStartsWith line "#" && !strStartsWith line "/usr/local/mysql/bin/mysqld"
      && !strStartsWith line "Tcp port:" && !strStartsWith line "Time                 Id Command" then
    if st.cur.isSome && !strStartsWith line "SET timestamp=" then
      .ok { st with sql := st.sql ++ [line] }
    else .ok st
  else .ok st

/-- Stable insertion used to model the final `slow_queries.sort(key=...)`:
insert after all existing elements with key ≤ the new key. -/
def insSorted (q : SlowQuery) : List SlowQuery → List SlowQuery
  | [] => [q]
  | r :: rs =>
    if dtKey r.timestamp ≤ dtKey q.timestamp then r :: insSorted q rs
    else q :: r :: rs

/-- Stable sort of the record list by timestamp key. -/
def sortByTs (l : List SlowQuery) : List SlowQuery :=
  l.foldl (fun acc q => insSorted q acc) []

/-- All record timestamps timezone-naive. -/
def allNaiveTs (l : List SlowQuery) : Bool := l.all (fun q => q.timestamp.off.isNone)

/-- All record timestamps timezone-aware. -/
def allAwareTs (l : List SlowQuery) : Bool := l.all (fun q => q.timestamp.off.isSome)

/-- Embedding of `slow_queries.sort(key=lambda x: x.timestamp)`: CPython
raises `TypeError` exactly when the sort compares a naive with an aware
datetime, which is unavoidable for a list containing both kinds and
impossible for a homogeneous list; on a homogeneous list it stably sorts by
the datetime key. -/
def sortTsE (l : List SlowQuery) : Except String (List SlowQuery) :=
  if allNaiveTs l || allAwareTs l then .ok (sortByTs l)
  else .error "TypeError: sort comparison of offset-naive and offset-aware datetimes"

/-- Run the line loop over the whole input. -/
def runLines (today : PDate) : PState → List String → Except String PState
  | st, [] => .ok st
  | st, l :: ls =>
    match stepLine today st l with
    | .ok st2 => runLines today st2 ls
    | .error e => .error e

/-- Embedding of `parse_slow_log`: the file is given as its list of lines and
the current civil day in the reference time zone (the source reads it from
the wall clock) as an explicit parameter. -/
def parseSlowLog (lines : List String) (today : PDate) : Except String (List SlowQuery) :=
  match runLines today ⟨[], none, []⟩ lines with
  | .error e => .error e
  | .ok st => sortTsE (flushCur today st)

/-- Embedding of the deduplication list comprehension of `process_instance`
(`[q for q in slow_queries if q.timestamp > last_time]`): the comparison is
evaluated per record in file order and the first `TypeError` propagates. -/
def filterNewE : List SlowQuery → PDateTime → Except String (List SlowQuery)
  | [], _ => .ok []
  | q :: qs, c =>
    match pyGT q.timestamp c with
    | .error e => .error e
    | .ok b =>
      match filterNewE qs c with
      | .error e => .error e
      | .ok rest => .ok (if b then q :: rest else rest)

/-- Fold of Python `max` over the remaining elements (CPython compares each
candidate to the current maximum with `>`). -/
def pyMaxFold (cur : PDateTime) : List PDateTime → Except String PDateTime
  | [] => .ok cur
  | t :: ts =>
    match pyGT t cur with
    | .error e => .error e
    | .ok b => pyMaxFold (if b then t else cur) ts

/-- Embedding of `max(query.timestamp for query in new_queries)`. -/
def pyMaxTs : List PDateTime → Except String PDateTime
  | [] => .error "ValueError: max() arg is an empty sequence"
  | t :: ts => pyMaxFold t ts

/-- Embedding of the cursor effect of one `process_instance` execution
(lines 528-556), given the parsed record list of this cycle and the outcomes
of the two I/O collaborators: `genOk` is whether `_generate_alert_file`
returned a path (its write succeeded), `sendOk` is whether `send_alert`
returned `True`.  Every exception inside the `try` block (including a
`TypeError` from the dedup comparison) is caught by the enclosing handler,
leaving the cursor unchanged. -/
def processCursorStep (c : PDateTime) (qs : List SlowQuery) (genOk sendOk : Bool) : PDateTime :=
  if qs.isEmpty then c
  else
    match filterNewE qs c with
    | .error _ => c
    | .ok newQ =>
      if newQ.isEmpty then c
      else if genOk then
        if sendOk then
          match pyMaxTs (newQ.map (fun q => q.timestamp)) with
          | .ok m => m
          | .error _ => c
        else c
      else c

/-- Cursor evolution over a sequence of `process_instance` executions for one
instance; each element carries that cycle's parsed records and collaborator
outcomes. -/
def cursorRun (c : PDateTime) (steps : List (List SlowQuery × Bool × Bool)) : PDateTime :=
  steps.foldl (fun cur st => processCursorStep cur st.1 st.2.1 st.2.2) c

/-- Embedding of the cursor initialization in `__init__` (line 96):
`datetime.now(ZoneInfo('Asia/Shanghai'))` is timezone-aware with fixed
offset +08:00 (Shanghai observes no DST). -/
def initialCursor (y mo d h mi s : Nat) : PDateTime := ⟨y, mo, d, h, mi, s, some 480⟩

/-- One entry of the export-job poll response file list. -/
structure SlowlogFile where
  status : String
  file_link : Option String
deriving DecidableEq, Repr

/-- One structured poll response of the export-job API (`None` at the call
site models `request_download_link` swallowing an exception). -/
structure PollResponse where
  status : String
  list : List SlowlogFile
deriving DecidableEq, Repr

/-- The success condition tested inside `wait_for_download_link`: status is
`FINISH`, the file list is non-empty and its FIRST entry reports `SUCCESS`. -/
def finishHit (r : PollResponse) : Bool :=
  r.status = "FINISH" &&
    (match r.list with
     | e :: _ => e.status = "SUCCESS"
     | [] => false)

/-- Recursion of `wait_for_download_link`: `f i` is the response of the
`i`-th call to `request_download_link`, the second argument the remaining
retry budget.  Mirrors the source exactly: a `None` response returns
`(False, None)`; on `FINISH` with a successful first entry it returns that
entry's `file_link` (which may itself be `None`); on `FAILED` it returns
`(False, None)`; otherwise it sleeps and retries; an exhausted budget
returns `(False, None)`. -/
def waitLoop (f : Nat → Option PollResponse) : Nat → Nat → Bool × Option String
  | _, 0 => (false, none)
  | i, k + 1 =>
    match f i with
    | none => (false, none)
    | some r =>
      if finishHit r then
        (true, match r.list with
               | e :: _ => e.file_link
               | [] => none)
      else if r.status = "FAILED" then (false, none)
      else waitLoop f (i + 1) k

/-- Embedding of `wait_for_download_link` (default `max_retries = 10`). -/
def waitForDownloadLink (f : Nat → Option PollResponse) (maxRetries : Nat) : Bool × Option String :=
  waitLoop f 0 maxRetries

/-- Outcome of one cycle of the poll loop `run`: which instances were entered
before the cycle ended, whether the cycle ended by an exception, and whether
the loop slept the full interval before the next cycle. -/
structure CycleResult where
  attempted : List String
  erred : Bool
  sleptFullInterval : Bool
deriving DecidableEq, Repr

/-- Instances entered during one cycle, given which instances raise out of
`process_instance`: the `try` of `run` wraps the whole `for` loop, so the
first raising instance ends the cycle. -/
def cycleAttempts (raises : String → Bool) : List String → List String × Bool
  | [] => ([], false)
  | i :: rest =>
    if raises i then ([i], true)
    else
      let p := cycleAttempts raises rest
      (i :: p.1, p.2)

/-- One cycle of `run`: both the normal path and the `except Exception`
handler sleep the full `query_interval` before the next cycle. -/
def runCycle (raises : String → Bool) (instances : List String) : CycleResult :=
  let p := cycleAttempts raises instances
  ⟨p.1, p.2, true⟩

/-- The infinite `while True` loop of `run`, truncated to `n` cycles: an
exception in one cycle is caught and the loop continues, so all `n` cycles
execute. -/
def runCycles (raises : Nat → String → Bool) (instances : List String) (n : Nat) : List CycleResult :=
  (List.range n).map (fun c => runCycle (raises c) instances)

/-- Embedding of `_delete_old_slowlog`: the download directory is its list of
file names; a file survives unless its name contains `slowlog_download` and
differs from the new file name.  The `instance_id` parameter is carried
because the source takes it, but the body never uses it. -/
def deleteOldSlowlog (instanceId : String) (newFileName : String) (dir : List String) : List String :=
  dir.filter (fun n => !(strContains n "slowlog_download" && n != newFileName))

/-- Directory contents after a successful `download_slow_log`: old slow-log
files deleted, then the new file written (overwriting an existing file of
the same name). -/
def downloadDirAfter (instanceId : String) (newFileName : String) (dir : List String) : List String :=
  let d2 := deleteOldSlowlog instanceId newFileName dir
  if newFileName ∈ d2 then d2 else d2 ++ [newFileName]

/-- Embedding of `get_time_range` at the level of instants (seconds since
the epoch): `datetime.now(Asia/Shanghai).astimezone(UTC)` denotes the same
instant `now`, and the window is `(now − 1 minute, now)`. -/
def getTimeRange (nowUtc : Int) : Int × Int := (nowUtc - 60, nowUtc)

/-- Inverse civil-calendar conversion: epoch day number to `(y, m, d)`. -/
def civilFromDays (z0 : Int) : Int × Int × Int :=
  let z := z0 + 719468
  let era := (if 0 ≤ z then z else z - 146096) / 146097
  let doe := z - era * 146097
  let yoe := (doe - doe / 1460 + doe / 36524 - doe / 146096) / 365
  let y := yoe + era * 400
  let doy := doe - (365 * yoe + yoe / 4 - yoe / 100)
  let mp := (5 * doy + 2) / 153
  let d := doy - (153 * mp + 2) / 5 + 1
  let m := mp + (if mp < 10 then 3 else -9)
  (if m ≤ 2 then y + 1 else y, m, d)

/-- Zero-padded decimal rendering helpers for `strftime`. -/
def pad2 (n : Nat) : String :=
  if n < 10 then "0" ++ toString n else toString n

/-- Four-digit zero-padded year. -/
def pad4 (n : Nat) : String :=
  if n < 10 then "000" ++ toString n
  else if n < 100 then "00" ++ toString n
  else if n < 1000 then "0" ++ toString n
  else toString n

/-- Embedding of `utc.strftime('%Y-%m-%dT%H:%MZ')` on the instant `t`:
the wire format renders the UTC civil time at minute precision. -/
def renderWire (t : Int) : String :=
  let days := t.ediv 86400
  let secs := (t.emod 86400).toNat
  let ymd := civilFromDays days
  pad4 ymd.1.toNat ++ "-" ++ pad2 ymd.2.1.toNat ++ "-" ++ pad2 ymd.2.2.toNat
    ++ "T" ++ pad2 (secs / 3600) ++ ":" ++ pad2 (secs % 3600 / 60) ++ "Z"

/-- The pair of wire-format strings returned by `get_time_range`. -/
def getTimeRangeStrings (nowUtc : Int) : String × String :=
  (renderWire (getTimeRange nowUtc).1, renderWire (getTimeRange nowUtc).2)

theorem cycleAttempts_ok (raises : String → Bool) :
    ∀ instances : List String, (∀ i ∈ instances, raises i = false) →
      cycleAttempts raises instances = (instances, false) := by
  intro instances h
  induction instances with
  | nil => rfl
  | cons a rest ih =>
    have ha : raises a = false := h a (by simp)
    simp only [cycleAttempts, ha, Bool.false_eq_true, if_false]
    rw [ih (fun i hi => h i (by simp [hi]))]

theorem cycleAttempts_raise (raises : String → Bool) (bad : String) (post : List String)
    (hbad : raises bad = true) :
    ∀ pre : List String, (∀ i ∈ pre, raises i = false) →
      cycleAttempts raises (pre ++ bad :: post) = (pre ++ [bad], true) := by
  intro pre h
  induction pre with
  | nil => simp [cycleAttempts, hbad]
  | cons a rest ih =>
    have ha : raises a = false := h a (by simp)
    simp only [List.cons_append, cycleAttempts, ha, Bool.false_eq_true, if_false,
      List.append_eq]
    rw [ih (fun i hi => h i (by simp [hi]))]

/-- Claim C8 (counterexample): in the two-instance configuration where
processing instance `A` raises, the cycle attempts only `A`; instance `B` is
not processed in that cycle, because the `try` of `run` wraps the whole
`for` loop.  This refutes the claim that a failure while processing one
instance does not prevent the remaining configured instances from being
processed in the same cycle. -/
theorem C8_counterexample :
    runCycle (fun i => i == "A") ["A", "B"] = ⟨["A"], true, true⟩ ∧
      "B" ∉ (runCycle (fun i => i == "A") ["A", "B"]).attempted := by
  constructor
  · rfl
  · decide

/-- Claim C8 (amended): an exception while processing one instance ends that
cycle early — the instances after the raising one are skipped until the next
cycle — but the process is not terminated (every later cycle still runs) and
the loop sleeps the full configured interval after the error, exactly as it
does after an error-free cycle. -/
theorem C8_amended :
    (∀ (raises : String → Bool) (instances : List String),
        (∀ i ∈ instances, raises i = false) →
        runCycle raises instances = ⟨instances, false, true⟩) ∧
    (∀ (raises : String → Bool) (pre : List String) (bad : String) (post : List String),
        (∀ i ∈ pre, raises i = false) → raises bad = true →
        runCycle raises (pre ++ bad :: post) = ⟨pre ++ [bad], true, true⟩) ∧
    (∀ (raises : Nat → String → Bool) (instances : List String) (n : Nat),
        (runCycles raises instances n).length = n ∧
        ∀ c ∈ runCycles raises instances n, c.sleptFullInterval = true) := by
  refine ⟨fun raises instances h => ?_, fun raises pre bad post h hbad => ?_,
    fun raises instances n => ⟨by simp [runCycles], fun c hc => ?_⟩⟩
  · simp only [runCycle, cycleAttempts_ok raises instances h]
  · simp only [runCycle, cycleAttempts_raise raises bad post hbad pre h]
  · simp only [runCycles, List.mem_map] at hc
    obtain ⟨j, _, rfl⟩ := hc
    rfl

/-- Claim C8 witness: the amended statement applied to the concrete
counterexample configuration. -/
theorem C8_amended_witness :
    runCycle (fun i => i == "A") ("" :: [] ++ "A" :: ["B"]) = ⟨[] ++ ["A"], true, true⟩ ∨
    runCycle (fun i => i == "A") ([] ++ "A" :: ["B"]) = ⟨[] ++ ["A"], true, true⟩ :=
  Or.inr (C8_amended.2.1 (fun i => i == "A") [] "A" ["B"] (by intro i hi; cases hi) (by decide))

/-- Claim C7: `get_time_range` always yields a window of exactly one minute
ending at the current instant; the bounds are rendered in the fixed
`%Y-%m-%dT%H:%MZ` wire format in UTC; and the window ends of two calls one
second apart differ by exactly one second.  (Rendering checked on the
concrete instant 2024-05-01T02:00:30 UTC.) -/
theorem C7_time_window :
    (∀ now : Int, getTimeRange now = (now - 60, now)) ∧
    (∀ now : Int, (getTimeRange now).2 - (getTimeRange now).1 = 60) ∧
    (∀ now : Int, (getTimeRange (now + 1)).2 - (getTimeRange now).2 = 1) ∧
    getTimeRangeStrings 1714528830 = ("2024-05-01T01:59Z", "2024-05-01T02:00Z") := by
  refine ⟨fun _ => rfl, fun now => ?_, fun now => ?_, by decide⟩
  · simp [getTimeRange]
  · simp [getTimeRange]

theorem length_le_one_of_allEq {α : Type} (a : α) :
    ∀ l : List α, l.Nodup → (∀ x ∈ l, x = a) → l.length ≤ 1 := by
  intro l hn ha
  match l with
  | [] => simp
  | [x] => simp
  | x :: y :: rest =>
    exfalso
    have hx : x = a := ha x (by simp)
    have hy : y = a := ha y (by simp)
    have : x ∉ y :: rest := (List.nodup_cons.mp hn).1
    exact this (by simp [hx, hy])

theorem countP_le_one_of_allEq (a : String) (p : String → Bool) :
    ∀ l : List String, l.Nodup → (∀ x ∈ l, p x = true → x = a) → l.countP p ≤ 1 := by
  intro l hn ha
  rw [List.countP_eq_length_filter]
  refine length_le_one_of_allEq a _ (List.Nodup.filter p hn) ?_
  intro x hx
  exact ha x (List.mem_of_mem_filter hx) (List.of_mem_filter hx)

theorem mem_deleteOldSlowlog (i newName : String) (dir : List String) (n : String) :
    n ∈ deleteOldSlowlog i newName dir ↔
      n ∈ dir ∧ ¬(strContains n "slowlog_download" = true ∧ n ≠ newName) := by
  simp only [deleteOldSlowlog, List.mem_filter, Bool.not_eq_true', Bool.and_eq_false_iff,
    bne_eq_false_iff_eq]
  constructor
  · rintro ⟨hmem, h⟩
    refine ⟨hmem, ?_⟩
    rintro ⟨hc, hne⟩
    rcases h with h | h
    · exact absurd hc (by simp [h])
    · exact hne h
  · rintro ⟨hmem, h⟩
    refine ⟨hmem, ?_⟩
    by_cases hc : strContains n "slowlog_download" = true
    · exact Or.inr (by_contra fun hne => h ⟨hc, hne⟩)
    · exact Or.inl (Bool.not_eq_true _ ▸ hc)

theorem matching_eq_new_of_mem_delete (i newName : String) (dir : List String) (n : String)
    (hmem : n ∈ deleteOldSlowlog i newName dir)
    (hc : strContains n "slowlog_download" = true) : n = newName := by
  rcases (mem_deleteOldSlowlog i newName dir n).mp hmem with ⟨_, h⟩
  by_contra hne
  exact h ⟨hc, hne⟩

/-- Claim C10: `_delete_old_slowlog` deletes exactly the files whose name
contains `slowlog_download` and differs from the new file name, leaving all
other files untouched; the `instance_id` argument has no effect on the
result; and after a successful download at most one file whose name contains
`slowlog_download` remains in the directory, across all instances. -/
theorem C10_cleanup :
    (∀ i1 i2 newName dir, deleteOldSlowlog i1 newName dir = deleteOldSlowlog i2 newName dir) ∧
    (∀ i newName dir n, n ∈ deleteOldSlowlog i newName dir ↔
      n ∈ dir ∧ ¬(strContains n "slowlog_download" = true ∧ n ≠ newName)) ∧
    (∀ i newName dir, dir.Nodup →
      (downloadDirAfter i newName dir).countP (fun n => strContains n "slowlog_download") ≤ 1) := by
  refine ⟨fun _ _ _ _ => rfl, mem_deleteOldSlowlog, fun i newName dir hnodup => ?_⟩
  have hd2 : (deleteOldSlowlog i newName dir).Nodup := List.Nodup.filter _ hnodup
  unfold downloadDirAfter
  by_cases hmem : newName ∈ deleteOldSlowlog i newName dir
  · simp only [hmem, if_true]
    exact countP_le_one_of_allEq newName _ _ hd2
      (fun x hx hc => matching_eq_new_of_mem_delete i newName dir x hx hc)
  · simp only [hmem, if_false]
    rw [List.countP_append]
    have h1 : (deleteOldSlowlog i newName dir).countP
        (fun n => strContains n "slowlog_download") = 0 := by
      rw [List.countP_eq_zero]
      intro x hx hc
      exact hmem (matching_eq_new_of_mem_delete i newName dir x hx hc ▸ hx)
    have h2 : ([newName] : List String).countP
        (fun n => strContains n "slowlog_download") ≤ 1 := by
      simp [List.countP_cons]
      split <;> simp
    omega

/-- Claim C10 witness: the cleanup facts applied to a concrete directory
holding two stale slow-log files of different instances plus an unrelated
file. -/
theorem C10_cleanup_witness :
    (downloadDirAfter "inst1" "slowlog_download_new.log"
      ["slowlog_download_old1.log", "other.txt", "slowlog_download_old2.log"]).countP
        (fun n => strContains n "slowlog_download") ≤ 1 :=
  C10_cleanup.2.2 "inst1" "slowlog_download_new.log"
    ["slowlog_download_old1.log", "other.txt", "slowlog_download_old2.log"] (by decide)

/-- A poll response on which the loop keeps retrying: structured, not the
success form, and not `FAILED`. -/
def respContinue (o : Option PollResponse) : Prop :=
  ∃ r, o = some r ∧ finishHit r = false ∧ r.status ≠ "FAILED"

/-- A poll response on which the loop stops and returns the link `l`: status
`FINISH` and the first file-list entry reports `SUCCESS` with link `l`. -/
def respSuccess (o : Option PollResponse) (l : String) : Prop :=
  ∃ r e rest, o = some r ∧ finishHit r = true ∧ r.list = e :: rest ∧ e.file_link = some l

theorem waitLoop_true_iff (f : Nat → Option PollResponse) (l : String) :
    ∀ (k i : Nat), waitLoop f i k = (true, some l) ↔
      ∃ j, j < k ∧ respSuccess (f (i + j)) l ∧ ∀ m, m < j → respContinue (f (i + m)) := by
  intro k
  induction k with
  | zero => intro i; simp [waitLoop]
  | succ k ih =>
    intro i
    cases hfi : f i with
    | none =>
      simp only [waitLoop, hfi]
      constructor
      · intro h; exact absurd h (by simp)
      · rintro ⟨j, hj, hs, hc⟩
        exfalso
        cases j with
        | zero =>
          obtain ⟨r, e, rest, hr, -, -, -⟩ := hs
          have hr2 : f i = some r := hr
          rw [hfi] at hr2
          exact Option.noConfusion hr2
        | succ j2 =>
          obtain ⟨r, hr, -⟩ := hc 0 (Nat.succ_pos _)
          have hr2 : f i = some r := hr
          rw [hfi] at hr2
          exact Option.noConfusion hr2
    | some r =>
      by_cases hfh : finishHit r = true
      · have hl : ∃ e rest, r.list = e :: rest := by
          unfold finishHit at hfh
          cases hrl : r.list with
          | nil => rw [hrl] at hfh; simp at hfh
          | cons e rest => exact ⟨e, rest, rfl⟩
        obtain ⟨e, rest, hrl⟩ := hl
        simp only [waitLoop, hfi, hfh, if_true, hrl]
        constructor
        · intro h
          have hel : e.file_link = some l := ((Prod.mk.injEq _ _ _ _).mp h).2
          exact ⟨0, Nat.succ_pos _, ⟨r, e, rest, hfi, hfh, hrl, hel⟩,
            fun m hm => absurd hm (Nat.not_lt_zero m)⟩
        · rintro ⟨j, hj, hs, hc⟩
          cases j with
          | zero =>
            obtain ⟨r2, e2, rest2, hr2, -, hrl2, hel2⟩ := hs
            have hr3 : f i = some r2 := hr2
            rw [hfi] at hr3
            injection hr3 with hrr
            subst hrr
            rw [hrl] at hrl2
            injection hrl2 with he hrest
            subst he
            rw [hel2]
          | succ j2 =>
            obtain ⟨r2, hr2, hfh2, -⟩ := hc 0 (Nat.succ_pos _)
            have hr3 : f i = some r2 := hr2
            rw [hfi] at hr3
            injection hr3 with hrr
            subst hrr
            exact absurd hfh (by simp [hfh2])
      · by_cases hst : r.status = "FAILED"
        · simp only [waitLoop, hfi, hfh, if_false, hst, if_true]
          constructor
          · intro h; exact absurd h (by simp)
          · rintro ⟨j, hj, hs, hc⟩
            exfalso
            cases j with
            | zero =>
              obtain ⟨r2, e2, rest2, hr2, hfh2, -, -⟩ := hs
              have hr3 : f i = some r2 := hr2
              rw [hfi] at hr3
              injection hr3 with hrr
              subst hrr
              exact hfh hfh2
            | succ j2 =>
              obtain ⟨r2, hr2, -, hst2⟩ := hc 0 (Nat.succ_pos _)
              have hr3 : f i = some r2 := hr2
              rw [hfi] at hr3
              injection hr3 with hrr
              subst hrr
              exact hst2 hst
        · have hloop : waitLoop f i (k + 1) = waitLoop f (i + 1) k := by
            simp only [waitLoop, hfi]
            rw [if_neg hfh, if_neg hst]
          rw [hloop, ih (i + 1)]
          constructor
          · rintro ⟨j, hj, hs, hc⟩
            refine ⟨j + 1, Nat.succ_lt_succ hj, ?_, ?_⟩
            · have harith : i + (j + 1) = i + 1 + j := by omega
              rw [harith]; exact hs
            · intro m hm
              cases m with
              | zero => exact ⟨r, hfi, Bool.not_eq_true _ ▸ hfh, hst⟩
              | succ m2 =>
                have harith : i + (m2 + 1) = i + 1 + m2 := by omega
                rw [harith]
                exact hc m2 (by omega)
          · rintro ⟨j, hj, hs, hc⟩
            cases j with
            | zero =>
              exfalso
              obtain ⟨r2, e2, rest2, hr2, hfh2, -, -⟩ := hs
              have hr3 : f i = some r2 := hr2
              rw [hfi] at hr3
              injection hr3 with hrr
              subst hrr
              exact hfh hfh2
            | succ j2 =>
              refine ⟨j2, by omega, ?_, ?_⟩
              · have harith : i + 1 + j2 = i + (j2 + 1) := by omega
                rw [harith]; exact hs
              · intro m hm
                have harith : i + 1 + m = i + (m + 1) := by omega
                rw [harith]
                exact hc (m + 1) (by omega)

theorem waitLoop_failed (f : Nat → Option PollResponse) :
    ∀ (k j i : Nat), j < k → (∀ m, m < j → respContinue (f (i + m))) →
      (∃ r, f (i + j) = some r ∧ finishHit r = false ∧ r.status = "FAILED") →
      waitLoop f i k = (false, none) := by
  intro k
  induction k with
  | zero => intro j i hj; exact absurd hj (Nat.not_lt_zero j)
  | succ k ih =>
    intro j i hj hc hf
    cases j with
    | zero =>
      obtain ⟨r, hr, hfh, hst⟩ := hf
      have hr2 : f i = some r := hr
      simp only [waitLoop, hr2]
      rw [if_neg (by simp [hfh]), if_pos hst]
    | succ j2 =>
      obtain ⟨r, hr, hfh, hst⟩ := hc 0 (Nat.succ_pos _)
      have hr2 : f i = some r := hr
      simp only [waitLoop, hr2]
      rw [if_neg (by simp [hfh]), if_neg hst]
      refine ih j2 (i + 1) (by omega) ?_ ?_
      · intro m hm
        have harith : i + 1 + m = i + (m + 1) := by omega
        rw [harith]
        exact hc (m + 1) (by omega)
      · have harith : i + 1 + j2 = i + (j2 + 1) := by omega
        rw [harith]
        exact hf

theorem waitLoop_exhaust (f : Nat → Option PollResponse) :
    ∀ (k i : Nat), (∀ m, m < k → respContinue (f (i + m))) →
      waitLoop f i k = (false, none) := by
  intro k
  induction k with
  | zero => intro i _; rfl
  | succ k ih =>
    intro i hc
    obtain ⟨r, hr, hfh, hst⟩ := hc 0 (Nat.succ_pos _)
    have hr2 : f i = some r := hr
    simp only [waitLoop, hr2]
    rw [if_neg (by simp [hfh]), if_neg hst]
    refine ih (i + 1) ?_
    intro m hm
    have harith : i + 1 + m = i + (m + 1) := by omega
    rw [harith]
    exact hc (m + 1) (by omega)

/-- The poll response used to refute claim C6: status `FINISH` and a result
list whose SECOND entry reports success with a link, while the first entry
is still pending. -/
def cexResp : PollResponse :=
  ⟨"FINISH", [⟨"PENDING", none⟩, ⟨"SUCCESS", some "http://x/f.log"⟩]⟩

/-- Claim C6 (counterexample): a response sequence whose every response has
status `FINISH` and contains an entry reporting `SUCCESS` with a resolvable
link; the claim says the poller returns success with that link, but the
source only inspects the FIRST entry of the list, keeps retrying, and after
exhausting the retry budget returns `(False, None)`. -/
theorem C6_counterexample :
    cexResp.status = "FINISH" ∧
    cexResp.list = [⟨"PENDING", none⟩, ⟨"SUCCESS", some "http://x/f.log"⟩] ∧
    (cexResp.list.getD 1 ⟨"", none⟩).status = "SUCCESS" ∧
    (cexResp.list.getD 1 ⟨"", none⟩).file_link = some "http://x/f.log" ∧
    waitForDownloadLink (fun _ => some cexResp) 10 = (false, none) := by
  refine ⟨rfl, rfl, rfl, rfl, by decide⟩

/-- Claim C6 (amended): the poller returns success with a download link
exactly when some response has status `FINISH` and the FIRST entry of its
result list reports `SUCCESS` with a link, all earlier responses being
structured, non-`FAILED`, non-success responses; a `FAILED` response reached
after such continue-responses, or exhaustion of the retry budget on
continue-responses, yields `(False, None)` — no download link and no
exception. -/
theorem C6_amended :
    (∀ (f : Nat → Option PollResponse) (maxRetries : Nat) (l : String),
      waitForDownloadLink f maxRetries = (true, some l) ↔
        ∃ j, j < maxRetries ∧ respSuccess (f j) l ∧ ∀ m, m < j → respContinue (f m)) ∧
    (∀ (f : Nat → Option PollResponse) (maxRetries j : Nat),
      j < maxRetries → (∀ m, m < j → respContinue (f m)) →
      (∃ r, f j = some r ∧ finishHit r = false ∧ r.status = "FAILED") →
      waitForDownloadLink f maxRetries = (false, none)) ∧
    (∀ (f : Nat → Option PollResponse) (maxRetries : Nat),
      (∀ m, m < maxRetries → respContinue (f m)) →
      waitForDownloadLink f maxRetries = (false, none)) := by
  refine ⟨fun f maxRetries l => ?_, fun f maxRetries j hj hc hf => ?_, fun f maxRetries hc => ?_⟩
  · simpa using waitLoop_true_iff f l maxRetries 0
  · exact waitLoop_failed f maxRetries j 0 hj (by simpa using hc) (by simpa using hf)
  · exact waitLoop_exhaust f maxRetries 0 (by simpa using hc)

/-- Claim C6 witness: the amended characterization applied to a concrete
sequence that succeeds on the first attempt. -/
theorem C6_amended_witness :
    waitForDownloadLink (fun _ => some ⟨"FINISH", [⟨"SUCCESS", some "L"⟩]⟩) 10 = (true, some "L") :=
  (C6_amended.1 (fun _ => some ⟨"FINISH", [⟨"SUCCESS", some "L"⟩]⟩) 10 "L").mpr
    ⟨0, by omega,
      ⟨⟨"FINISH", [⟨"SUCCESS", some "L"⟩]⟩, ⟨"SUCCESS", some "L"⟩, [], rfl, by decide, rfl, rfl⟩,
      fun m hm => absurd hm (Nat.not_lt_zero m)⟩

theorem filterNewE_ok_of_sameAware (c : PDateTime) :
    ∀ qs : List SlowQuery, (∀ q ∈ qs, q.timestamp.off.isSome = c.off.isSome) →
      filterNewE qs c = .ok (qs.filter (fun q => decide (dtKey c < dtKey q.timestamp))) := by
  intro qs h
  induction qs with
  | nil => rfl
  | cons q rest ih =>
    have hq : q.timestamp.off.isSome = c.off.isSome := h q (by simp)
    have hrest := ih (fun r hr => h r (by simp [hr]))
    simp only [filterNewE, pyGT, if_pos hq, hrest, List.filter_cons]

theorem filterNewE_error_of_mixed (c : PDateTime) :
    ∀ qs : List SlowQuery, (∃ q ∈ qs, q.timestamp.off.isSome ≠ c.off.isSome) →
      ∃ e, filterNewE qs c = .error e := by
  intro qs h
  induction qs with
  | nil => obtain ⟨q, hq, -⟩ := h; exact absurd hq (List.not_mem_nil q)
  | cons q rest ih =>
    by_cases hq : q.timestamp.off.isSome = c.off.isSome
    · have : ∃ r ∈ rest, r.timestamp.off.isSome ≠ c.off.isSome := by
        obtain ⟨r, hr, hne⟩ := h
        rcases List.mem_cons.mp hr with rfl | hr2
        · exact absurd hq hne
        · exact ⟨r, hr2, hne⟩
      obtain ⟨e, he⟩ := ih this
      refine ⟨e, ?_⟩
      simp only [filterNewE, pyGT, if_pos hq, he]
    · refine ⟨"TypeError: cannot compare offset-naive and offset-aware datetimes", ?_⟩
      simp only [filterNewE, pyGT, if_neg hq]

theorem filterNewE_isOk_iff (c : PDateTime) (qs : List SlowQuery) :
    (filterNewE qs c).isOk = true ↔ ∀ q ∈ qs, q.timestamp.off.isSome = c.off.isSome := by
  constructor
  · intro h
    by_contra hall
    push_neg at hall
    obtain ⟨e, he⟩ := filterNewE_error_of_mixed c qs hall
    rw [he] at h
    exact Bool.noConfusion h
  · intro h
    rw [filterNewE_ok_of_sameAware c qs h]
    rfl

theorem filterNewE_mem (c : PDateTime) (qs newQ : List SlowQuery)
    (h : filterNewE qs c = .ok newQ) :
    ∀ q ∈ newQ, q.timestamp.off.isSome = c.off.isSome ∧ dtKey c < dtKey q.timestamp := by
  have hok : (filterNewE qs c).isOk = true := by rw [h]; rfl
  have hall := (filterNewE_isOk_iff c qs).mp hok
  rw [filterNewE_ok_of_sameAware c qs hall] at h
  injection h with h2
  intro q hq
  rw [← h2] at hq
  have hmem := List.mem_of_mem_filter hq
  have hpred := List.of_mem_filter hq
  exact ⟨hall q hmem, of_decide_eq_true hpred⟩

/-- Record with the given timestamp and all other fields defaulted, built
through the source constructor path. -/
def mkRec (ts : PDateTime) : SlowQuery := createSlowQuery (initAccum ts)

/-- Claim C1 (counterexample): the dedup filter step applied to a parsed
record with a timezone-naive timestamp (the form produced by parsing a
`# Time:` line without offset) and the cursor the monitor actually uses (a
timezone-aware Asia/Shanghai datetime) raises `TypeError` instead of
returning the filtered record list, so the step does not return "exactly
those records whose timestamp is strictly greater than the cursor" for every
record list and cursor value. -/
theorem C1_counterexample :
    filterNewE [mkRec ⟨2024, 5, 1, 2, 5, 0, none⟩] (initialCursor 2024 5 1 2 0 0) =
      .error "TypeError: cannot compare offset-naive and offset-aware datetimes" ∧
    (filterNewE [mkRec ⟨2024, 5, 1, 2, 5, 0, none⟩] (initialCursor 2024 5 1 2 0 0)).isOk =
      false :=
  ⟨rfl, rfl⟩

/-- Claim C1 (amended): whenever every record timestamp has the same
timezone-awareness as the cursor (in particular in the all-naive situation of
the claim's example), the dedup filter step returns exactly the records with
timestamp strictly greater than the cursor, preserving their relative order;
for the two-record sequence with naive timestamps 02:00:00 and 02:05:00 and
a naive cursor at 02:00:00 it returns exactly the 02:05:00 record. -/
theorem C1_amended :
    (∀ (qs : List SlowQuery) (c : PDateTime),
        (∀ q ∈ qs, q.timestamp.off.isSome = c.off.isSome) →
        filterNewE qs c = .ok (qs.filter (fun q => decide (dtKey c < dtKey q.timestamp)))) ∧
    filterNewE [mkRec ⟨2024, 5, 1, 2, 0, 0, none⟩, mkRec ⟨2024, 5, 1, 2, 5, 0, none⟩]
        ⟨2024, 5, 1, 2, 0, 0, none⟩ =
      .ok [mkRec ⟨2024, 5, 1, 2, 5, 0, none⟩] :=
  ⟨fun qs c h => filterNewE_ok_of_sameAware c qs h, rfl⟩

/-- Claim C1 witness: the amended statement applied to the concrete
two-record example. -/
theorem C1_amended_witness :
    filterNewE [mkRec ⟨2024, 5, 1, 2, 0, 0, none⟩, mkRec ⟨2024, 5, 1, 2, 5, 0, none⟩]
        ⟨2024, 5, 1, 2, 0, 0, none⟩ =
      .ok [mkRec ⟨2024, 5, 1, 2, 5, 0, none⟩] := by
  rw [C1_amended.1 [mkRec ⟨2024, 5, 1, 2, 0, 0, none⟩, mkRec ⟨2024, 5, 1, 2, 5, 0, none⟩]
    ⟨2024, 5, 1, 2, 0, 0, none⟩ (by decide)]
  rfl

/-- Claim C9: the cursor is initialized timezone-aware (Asia/Shanghai,
+08:00); a timestamp parsed from a `# Time:` line without UTC offset is
timezone-naive; comparing such a naive parsed timestamp with the aware
cursor raises `TypeError` instead of producing a filtered list; and with the
aware cursor the dedup filter step succeeds exactly when every record
timestamp carries an offset. -/
theorem C9_awareness :
    fromiso "2024-05-01T02:00:00" = some ⟨2024, 5, 1, 2, 0, 0, none⟩ ∧
    (∀ y mo d h mi s, (initialCursor y mo d h mi s).off = some 480) ∧
    (∀ (qs : List SlowQuery) (c : PDateTime), c.off.isSome = true →
      (∃ q ∈ qs, q.timestamp.off = none) → ∃ e, filterNewE qs c = .error e) ∧
    (∀ (qs : List SlowQuery) (c : PDateTime), c.off.isSome = true →
      ((filterNewE qs c).isOk = true ↔ ∀ q ∈ qs, q.timestamp.off.isSome = true)) := by
  refine ⟨by decide, fun _ _ _ _ _ _ => rfl, fun qs c hc hex => ?_, fun qs c hc => ?_⟩
  · refine filterNewE_error_of_mixed c qs ?_
    obtain ⟨q, hq, hnone⟩ := hex
    exact ⟨q, hq, by rw [hnone, hc]; simp⟩
  · rw [filterNewE_isOk_iff c qs]
    constructor
    · intro h q hq; rw [h q hq, hc]
    · intro h q hq; rw [h q hq, hc]

/-- Claim C9 witness: the mixed-awareness failure applied to the concrete
naive record and the concrete aware cursor. -/
theorem C9_awareness_witness :
    (filterNewE [mkRec ⟨2024, 5, 1, 2, 5, 0, none⟩]
      (initialCursor 2024 5 1 2 0 0)).isOk = false := by
  obtain ⟨e, he⟩ :=
    C9_awareness.2.2.1 [mkRec ⟨2024, 5, 1, 2, 5, 0, none⟩] (initialCursor 2024 5 1 2 0 0)
      (by decide) ⟨mkRec ⟨2024, 5, 1, 2, 5, 0, none⟩, by simp, by decide⟩
  rw [he]
  rfl

theorem pyMaxFold_spec :
    ∀ (ts : List PDateTime) (cur : PDateTime),
      (∀ t ∈ ts, t.off.isSome = cur.off.isSome) →
      ∃ m, pyMaxFold cur ts = .ok m ∧ (m = cur ∨ m ∈ ts) ∧ dtKey cur ≤ dtKey m ∧
        (∀ t ∈ ts, dtKey t ≤ dtKey m) ∧ m.off.isSome = cur.off.isSome := by
  intro ts
  induction ts with
  | nil =>
    intro cur h
    exact ⟨cur, rfl, Or.inl rfl, le_refl _, by simp, rfl⟩
  | cons t rest ih =>
    intro cur h
    have ht : t.off.isSome = cur.off.isSome := h t (by simp)
    by_cases hb : dtKey cur < dtKey t
    · have hrest : ∀ r ∈ rest, r.off.isSome = t.off.isSome := by
        intro r hr; rw [h r (by simp [hr]), ht]
      obtain ⟨m, hok, hmem, hle, hub, hoff⟩ := ih t hrest
      have hred : pyMaxFold cur (t :: rest) = pyMaxFold t rest := by
        simp [pyMaxFold, pyGT, ht, hb]
      refine ⟨m, by rw [hred]; exact hok, ?_, le_trans (le_of_lt hb) hle, ?_, by rw [hoff, ht]⟩
      · rcases hmem with rfl | hm
        · exact Or.inr (by simp)
        · exact Or.inr (by simp [hm])
      · intro r hr
        rcases List.mem_cons.mp hr with rfl | hr2
        · exact hle
        · exact hub r hr2
    · have hrest : ∀ r ∈ rest, r.off.isSome = cur.off.isSome := by
        intro r hr; exact h r (by simp [hr])
      obtain ⟨m, hok, hmem, hle, hub, hoff⟩ := ih cur hrest
      have hred : pyMaxFold cur (t :: rest) = pyMaxFold cur rest := by
        simp [pyMaxFold, pyGT, ht, hb]
      refine ⟨m, by rw [hred]; exact hok, ?_, hle, ?_, hoff⟩
      · rcases hmem with rfl | hm
        · exact Or.inl rfl
        · exact Or.inr (by simp [hm])
      · intro r hr
        rcases List.mem_cons.mp hr with rfl | hr2
        · exact le_trans (le_of_not_lt hb) hle
        · exact hub r hr2

theorem pyMaxTs_spec (t0 : PDateTime) (rest : List PDateTime) (c : PDateTime)
    (h : ∀ t ∈ t0 :: rest, t.off.isSome = c.off.isSome) :
    ∃ m, pyMaxTs (t0 :: rest) = .ok m ∧ m ∈ t0 :: rest ∧
      (∀ t ∈ t0 :: rest, dtKey t ≤ dtKey m) ∧ m.off.isSome = c.off.isSome := by
  have ht0 : t0.off.isSome = c.off.isSome := h t0 (by simp)
  have hrest : ∀ t ∈ rest, t.off.isSome = t0.off.isSome := by
    intro t htm; rw [h t (by simp [htm]), ht0]
  obtain ⟨m, hok, hmem, hle, hub, hoff⟩ := pyMaxFold_spec rest t0 hrest
  refine ⟨m, hok, ?_, ?_, by rw [hoff, ht0]⟩
  · rcases hmem with rfl | hm
    · simp
    · simp [hm]
  · intro t htm
    rcases List.mem_cons.mp htm with rfl | ht2
    · exact hle
    · exact hub t ht2

/-- Claim C2: over any sequence of `process_instance` executions for one
instance, the cursor is monotonically non-decreasing (by comparison key, its
awareness kind never changing), it moves only on an execution whose alert
generation and delivery both succeeded, a move sets it to the maximum
timestamp of the delivered batch (the dedup-filtered records), and a failed
delivery or an empty set of new records leaves it unchanged. -/
theorem C2_cursor_invariants :
    (∀ (c : PDateTime) (qs : List SlowQuery) (g s : Bool),
      processCursorStep c qs g s = c ∨
        (g = true ∧ s = true ∧
          dtKey c < dtKey (processCursorStep c qs g s) ∧
          (processCursorStep c qs g s).off.isSome = c.off.isSome ∧
          ∃ newQ, filterNewE qs c = .ok newQ ∧
            processCursorStep c qs g s ∈ newQ.map (fun q => q.timestamp) ∧
            ∀ t ∈ newQ.map (fun q => q.timestamp),
              dtKey t ≤ dtKey (processCursorStep c qs g s))) ∧
    (∀ (c : PDateTime) (qs : List SlowQuery) (g : Bool),
      processCursorStep c qs g false = c) ∧
    (∀ (c : PDateTime) (qs : List SlowQuery) (g s : Bool),
      filterNewE qs c = .ok [] → processCursorStep c qs g s = c) ∧
    (∀ (c : PDateTime) (steps : List (List SlowQuery × Bool × Bool)),
      dtKey c ≤ dtKey (cursorRun c steps) ∧ (cursorRun c steps).off.isSome = c.off.isSome) := by
  have main : ∀ (c : PDateTime) (qs : List SlowQuery) (g s : Bool),
      processCursorStep c qs g s = c ∨
        (g = true ∧ s = true ∧
          dtKey c < dtKey (processCursorStep c qs g s) ∧
          (processCursorStep c qs g s).off.isSome = c.off.isSome ∧
          ∃ newQ, filterNewE qs c = .ok newQ ∧
            processCursorStep c qs g s ∈ newQ.map (fun q => q.timestamp) ∧
            ∀ t ∈ newQ.map (fun q => q.timestamp),
              dtKey t ≤ dtKey (processCursorStep c qs g s)) := by
    intro c qs g s
    by_cases hqs : qs.isEmpty
    · exact Or.inl (by simp [processCursorStep, hqs])
    · cases hf : filterNewE qs c with
      | error e => exact Or.inl (by simp [processCursorStep, hqs, hf])
      | ok newQ =>
        match hnq : newQ with
        | [] => exact Or.inl (by simp [processCursorStep, hqs, hf])
        | q0 :: restQ =>
          cases g with
          | false => exact Or.inl (by simp [processCursorStep, hqs, hf])
          | true =>
            cases s with
            | false => exact Or.inl (by simp [processCursorStep, hqs, hf])
            | true =>
              have hmemQ := filterNewE_mem c qs (q0 :: restQ) hf
              have hoffall : ∀ t ∈ q0.timestamp :: restQ.map (fun q => q.timestamp),
                  t.off.isSome = c.off.isSome := by
                intro t htm
                have : t ∈ (q0 :: restQ).map (fun q => q.timestamp) := by
                  simpa using htm
                obtain ⟨q, hq, rfl⟩ := List.mem_map.mp this
                exact (hmemQ q hq).1
              obtain ⟨m, hok, hmem, hub, hoff⟩ :=
                pyMaxTs_spec q0.timestamp (restQ.map (fun q => q.timestamp)) c hoffall
              have hres : processCursorStep c qs true true = m := by
                simp only [processCursorStep, hqs, if_false, hf, List.isEmpty_cons,
                  Bool.false_eq_true, if_true, List.map_cons]
                rw [hok]
              refine Or.inr ⟨rfl, rfl, ?_, ?_, q0 :: restQ, rfl, ?_, ?_⟩
              · rw [hres]
                obtain ⟨q, hq, hqm⟩ := List.mem_map.mp (show m ∈ (q0 :: restQ).map
                    (fun q => q.timestamp) by simpa using hmem)
                rw [← hqm]
                exact (hmemQ q hq).2
              · rw [hres, hoff]
              · rw [hres]; simpa using hmem
              · intro t htm
                rw [hres]
                exact hub t (by simpa using htm)
  have stepmono : ∀ (c : PDateTime) (qs : List SlowQuery) (g s : Bool),
      dtKey c ≤ dtKey (processCursorStep c qs g s) ∧
        (processCursorStep c qs g s).off.isSome = c.off.isSome := by
    intro c qs g s
    rcases main c qs g s with h | ⟨-, -, hlt, hoff, -⟩
    · rw [h]; exact ⟨le_refl _, rfl⟩
    · exact ⟨le_of_lt hlt, hoff⟩
  refine ⟨main, ?_, ?_, ?_⟩
  · intro c qs g
    rcases main c qs g false with h | ⟨-, hs, -⟩
    · exact h
    · exact absurd hs (by simp)
  · intro c qs g s hf
    by_cases hqs : qs.isEmpty
    · simp [processCursorStep, hqs]
    · simp [processCursorStep, hqs, hf]
  · intro c steps
    induction steps generalizing c with
    | nil => exact ⟨le_refl _, rfl⟩
    | cons st rest ih =>
      have h1 := stepmono c st.1 st.2.1 st.2.2
      have h2 := ih (processCursorStep c st.1 st.2.1 st.2.2)
      have hrun : cursorRun c (st :: rest) =
          cursorRun (processCursorStep c st.1 st.2.1 st.2.2) rest := rfl
      rw [hrun]
      exact ⟨le_trans h1.1 h2.1, by rw [h2.2, h1.2]⟩

/-- Claim C2 witness: the invariants applied at a concrete cursor, record
list and delivery outcome (failed delivery leaves the cursor unchanged;
successful delivery either leaves it or strictly advances its key). -/
theorem C2_cursor_invariants_witness :
    processCursorStep ⟨2024, 5, 1, 2, 0, 0, none⟩ [mkRec ⟨2024, 5, 1, 2, 5, 0, none⟩] true false =
      ⟨2024, 5, 1, 2, 0, 0, none⟩ ∧
    (processCursorStep ⟨2024, 5, 1, 2, 0, 0, none⟩ [mkRec ⟨2024, 5, 1, 2, 5, 0, none⟩] true true =
        ⟨2024, 5, 1, 2, 0, 0, none⟩ ∨
      dtKey (⟨2024, 5, 1, 2, 0, 0, none⟩ : PDateTime) <
        dtKey (processCursorStep ⟨2024, 5, 1, 2, 0, 0, none⟩
          [mkRec ⟨2024, 5, 1, 2, 5, 0, none⟩] true true)) := by
  constructor
  · exact C2_cursor_invariants.2.1 ⟨2024, 5, 1, 2, 0, 0, none⟩
      [mkRec ⟨2024, 5, 1, 2, 5, 0, none⟩] true
  · rcases C2_cursor_invariants.1 ⟨2024, 5, 1, 2, 0, 0, none⟩
      [mkRec ⟨2024, 5, 1, 2, 5, 0, none⟩] true true with h | ⟨-, -, hlt, -⟩
    · exact Or.inl h
    · exact Or.inr hlt

theorem mem_insSorted (q x : SlowQuery) :
    ∀ l : List SlowQuery, x ∈ insSorted q l ↔ x = q ∨ x ∈ l := by
  intro l
  induction l with
  | nil => simp [insSorted]
  | cons r rs ih =>
    simp only [insSorted]
    split
    · simp only [List.mem_cons, ih]
      tauto
    · simp only [List.mem_cons]

theorem insSorted_pairwise (q : SlowQuery) :
    ∀ l : List SlowQuery,
      List.Pairwise (fun a b => dtKey a.timestamp ≤ dtKey b.timestamp) l →
      List.Pairwise (fun a b => dtKey a.timestamp ≤ dtKey b.timestamp) (insSorted q l) := by
  intro l h
  induction l with
  | nil => simp [insSorted]
  | cons r rs ih =>
    rw [List.pairwise_cons] at h
    obtain ⟨hr, hrs⟩ := h
    simp only [insSorted]
    split
    case isTrue hle =>
      rw [List.pairwise_cons]
      refine ⟨?_, ih hrs⟩
      intro x hx
      rcases (mem_insSorted q x rs).mp hx with rfl | hxm
      · exact hle
      · exact hr x hxm
    case isFalse hgt =>
      rw [List.pairwise_cons]
      refine ⟨?_, List.pairwise_cons.mpr ⟨hr, hrs⟩⟩
      intro x hx
      rcases List.mem_cons.mp hx with rfl | hxm
      · exact le_of_not_le hgt
      · exact le_trans (le_of_not_le hgt) (hr x hxm)

theorem sortByTs_aux_pairwise :
    ∀ (l acc : List SlowQuery),
      List.Pairwise (fun a b => dtKey a.timestamp ≤ dtKey b.timestamp) acc →
      List.Pairwise (fun a b => dtKey a.timestamp ≤ dtKey b.timestamp)
        (l.foldl (fun a q => insSorted q a) acc) := by
  intro l
  induction l with
  | nil => intro acc h; exact h
  | cons q rest ih =>
    intro acc h
    exact ih (insSorted q acc) (insSorted_pairwise q acc h)

theorem sortByTs_pairwise (l : List SlowQuery) :
    List.Pairwise (fun a b => dtKey a.timestamp ≤ dtKey b.timestamp) (sortByTs l) :=
  sortByTs_aux_pairwise l [] (by simp)

theorem mem_sortByTs_aux :
    ∀ (l acc : List SlowQuery) (x : SlowQuery),
      x ∈ l.foldl (fun a q => insSorted q a) acc ↔ x ∈ acc ∨ x ∈ l := by
  intro l
  induction l with
  | nil => intro acc x; simp
  | cons q rest ih =>
    intro acc x
    rw [List.foldl_cons, ih (insSorted q acc) x, mem_insSorted]
    simp only [List.mem_cons]
    tauto

theorem mem_sortByTs (l : List SlowQuery) (x : SlowQuery) :
    x ∈ sortByTs l ↔ x ∈ l := by
  rw [sortByTs, mem_sortByTs_aux]
  simp

theorem sortTsE_ok_mem (l out : List SlowQuery) (h : sortTsE l = .ok out) :
    ∀ x ∈ out, x ∈ l := by
  unfold sortTsE at h
  split at h
  · injection h with h2
    intro x hx
    rw [← h2] at hx
    exact (mem_sortByTs l x).mp hx
  · exact Except.noConfusion h

theorem sortTsE_ok_pairwise (l out : List SlowQuery) (h : sortTsE l = .ok out) :
    List.Pairwise (fun a b => dtKey a.timestamp ≤ dtKey b.timestamp) out := by
  unfold sortTsE at h
  split at h
  · injection h with h2
    rw [← h2]
    exact sortByTs_pairwise l
  · exact Except.noConfusion h

theorem stepLine_acc (today : PDate) (st : PState) (l : String) (st2 : PState)
    (h : stepLine today st l = .ok st2) :
    st2.acc = st.acc ∨ st2.acc = flushCur today st := by
  simp only [stepLine] at h
  repeat' split at h
  all_goals
    first
    | exact Except.noConfusion h
    | (injection h with h2; subst h2; first | exact Or.inl rfl | exact Or.inr rfl)

theorem flushCur_day (today : PDate) (st : PState)
    (h : ∀ r ∈ st.acc, dateOf r.timestamp = today) :
    ∀ r ∈ flushCur today st, dateOf r.timestamp = today := by
  unfold flushCur
  split
  · exact h
  · rename_i a heq
    split
    · exact h
    · split
      case isTrue hv =>
        intro r hr
        rcases List.mem_append.mp hr with hr1 | hr2
        · exact h r hr1
        · have hre : r = createSlowQuery
              ({ a with sql_text := some (String.intercalate "\n" st.sql) }) := by
            simpa using hr2
          rw [hre]
          exact of_decide_eq_true hv
      case isFalse => exact h

theorem runLines_day (today : PDate) :
    ∀ (lines : List String) (st stF : PState),
      runLines today st lines = .ok stF →
      (∀ r ∈ st.acc, dateOf r.timestamp = today) →
      ∀ r ∈ stF.acc, dateOf r.timestamp = today := by
  intro lines
  induction lines with
  | nil =>
    intro st stF h hacc
    injection h with h2
    rw [← h2]
    exact hacc
  | cons l rest ih =>
    intro st stF h hacc
    unfold runLines at h
    cases hs : stepLine today st l with
    | error e => rw [hs] at h; exact Except.noConfusion h
    | ok st1 =>
      rw [hs] at h
      refine ih st1 stF h ?_
      rcases stepLine_acc today st l st1 hs with heq | heq
      · rw [heq]; exact hacc
      · rw [heq]; exact flushCur_day today st hacc

/-- Claim C3: every record in the parser output falls on the current civil
day (the `today` parameter, read by the source from the Asia/Shanghai wall
clock); records dated on any other day are silently excluded, and a file
containing one record with time marker 2023-01-01T10:00:00 parsed on
2023-01-02 yields zero records without error. -/
theorem C3_day_filter :
    (∀ (lines : List String) (today : PDate) (out : List SlowQuery),
        parseSlowLog lines today = .ok out →
        ∀ r ∈ out, dateOf r.timestamp = today) ∧
    parseSlowLog ["# Time: 2023-01-01T10:00:00", "SELECT 1;"] ⟨2023, 1, 2⟩ = .ok [] := by
  constructor
  · intro lines today out h r hr
    unfold parseSlowLog at h
    cases hrun : runLines today ⟨[], none, []⟩ lines with
    | error e => rw [hrun] at h; exact Except.noConfusion h
    | ok st =>
      rw [hrun] at h
      have hmem := sortTsE_ok_mem (flushCur today st) out h r hr
      refine flushCur_day today st ?_ r hmem
      exact runLines_day today lines ⟨[], none, []⟩ st hrun (by intro x hx; cases hx)
  · rfl

/-- Claim C3 witness: the day filter applied to a one-record file parsed on
the record's own day. -/
theorem C3_day_filter_witness :
    dateOf (createSlowQuery
      { timestamp := ⟨2023, 1, 1, 10, 0, 0, none⟩,
        sql_text := some "SELECT 1;" }).timestamp = (⟨2023, 1, 1⟩ : PDate) :=
  C3_day_filter.1 ["# Time: 2023-01-01T10:00:00", "SELECT 1;"] ⟨2023, 1, 1⟩
    [createSlowQuery { timestamp := ⟨2023, 1, 1, 10, 0, 0, none⟩, sql_text := some "SELECT 1;" }]
    rfl _ (by simp)

/-- The two-record example input of the specification. -/
def exLines : List String :=
  ["# Time: 2024-05-01T02:00:00",
   "# Query_time: 3.500000  Lock_time: 0.000000 Rows_sent: 1  Rows_examined: 100",
   "SELECT * FROM t1;",
   "# Time: 2024-05-01T02:05:00",
   "# Query_time: 3.500000  Lock_time: 0.000000 Rows_sent: 1  Rows_examined: 100",
   "SELECT * FROM t2;"]

/-- First record of the parsed example. -/
def exRec1 : SlowQuery :=
  createSlowQuery
    ({ timestamp := ⟨2024, 5, 1, 2, 0, 0, none⟩,
       query_time := some ⟨35, 1⟩, lock_time := some ⟨0, 0⟩,
       rows_sent := some 1, rows_examined := some 100,
       sql_text := some "SELECT * FROM t1;" })

/-- Second record of the parsed example. -/
def exRec2 : SlowQuery :=
  createSlowQuery
    ({ timestamp := ⟨2024, 5, 1, 2, 5, 0, none⟩,
       query_time := some ⟨35, 1⟩, lock_time := some ⟨0, 0⟩,
       rows_sent := some 1, rows_examined := some 100,
       sql_text := some "SELECT * FROM t2;" })

/-- Claim C4: the two consecutive time-marker records of the example, each
with the metadata line and one SQL line, parse (on their own civil day) to
exactly two records in timestamp order with `query_time = 3.5` (the decimal
`35/10`) and `rows_examined = 100`; and for every input the parser output is
sorted ascending by timestamp. -/
theorem C4_parse_example_and_sorted :
    parseSlowLog exLines ⟨2024, 5, 1⟩ = .ok [exRec1, exRec2] ∧
    exRec1.query_time = ⟨35, 1⟩ ∧ exRec2.query_time = ⟨35, 1⟩ ∧
    DecNum.toRat ⟨35, 1⟩ = 7 / 2 ∧
    exRec1.rows_examined = 100 ∧ exRec2.rows_examined = 100 ∧
    dtKey exRec1.timestamp < dtKey exRec2.timestamp ∧
    (∀ (lines : List String) (today : PDate) (out : List SlowQuery),
      parseSlowLog lines today = .ok out →
      List.Pairwise (fun a b => dtKey a.timestamp ≤ dtKey b.timestamp) out) := by
  refine ⟨rfl, rfl, rfl, by norm_num [DecNum.toRat], rfl, rfl, by decide, ?_⟩
  intro lines today out h
  unfold parseSlowLog at h
  cases hrun : runLines today ⟨[], none, []⟩ lines with
  | error e => rw [hrun] at h; exact Except.noConfusion h
  | ok st =>
    rw [hrun] at h
    exact sortTsE_ok_pairwise _ out h

/-- Claim C4 witness: the sortedness statement applied to the concrete
example parse. -/
theorem C4_parse_example_witness :
    dtKey exRec1.timestamp ≤ dtKey exRec2.timestamp := by
  have h := C4_parse_example_and_sorted.2.2.2.2.2.2.2 exLines ⟨2024, 5, 1⟩ [exRec1, exRec2] rfl
  rw [List.pairwise_cons] at h
  exact h.1 exRec2 (by simp)

/-- Well-formedness of a `# Time:` line: the split yields a part after the
marker and it parses to a (timezone-naive, as in real slow logs) datetime. -/
def timeMarkerOk (line : String) : Bool :=
  match splitOnSub line "Time: " with
  | _ :: p1 :: _ =>
    match fromiso p1 with
    | some ts => ts.off.isNone
    | none => false
  | _ => false

/-- Well-formedness of a `# User@Host:` line: the indexed split succeeds. -/
def userHostOk (line : String) : Bool :=
  match splitOnSub line "# User@Host: " with
  | _ :: _ :: _ => true
  | _ => false

/-- Well-formedness of a `# Query_time:` line: every captured metric value
converts to `float`, and the Start/End captures (when present) parse. -/
def metricsOk (line : String) : Bool :=
  ((findallKV line).all (fun kv =>
    if kv.1 = "Query_time" || kv.1 = "Lock_time" || kv.1 = "Rows_sent" ||
        kv.1 = "Rows_examined"
    then (pyFloatD kv.2).isSome else true))
  && (match searchLit line "Start:" (fun c => !isPySpace c) with
      | some v => (fromiso v).isSome
      | none => true)
  && (match searchLit line "End:" (fun c => !isPySpace c) with
      | some v => (fromiso v).isSome
      | none => true)

/-- A line on which the parser's line handler cannot raise: the three header
kinds with conversions are well formed; every other line (missing metadata,
multi-line SQL text, boilerplate noise, blank lines) is unconditionally
safe. -/
def lineOk (raw : String) : Bool :=
  if (pyStrip raw).data.isEmpty then true
  else if strStartsWith (pyStrip raw) "# Time:" then timeMarkerOk (pyStrip raw)
  else if strStartsWith (pyStrip raw) "# User@Host:" then userHostOk (pyStrip raw)
  else if strStartsWith (pyStrip raw) "# Query_time:" then metricsOk (pyStrip raw)
  else true

theorem applyPairs_ok :
    ∀ (pairs : List (String × String)) (a : Accum),
      (∀ kv ∈ pairs,
        (kv.1 = "Query_time" || kv.1 = "Lock_time" || kv.1 = "Rows_sent" ||
          kv.1 = "Rows_examined") = true → (pyFloatD kv.2).isSome = true) →
      ∃ a2, applyPairs a pairs = .ok a2 ∧ a2.timestamp = a.timestamp := by
  intro pairs
  induction pairs with
  | nil => intro a _; exact ⟨a, rfl, rfl⟩
  | cons kv rest ih =>
    intro a h
    obtain ⟨k, v⟩ := kv
    have hrest : ∀ kv ∈ rest,
        (kv.1 = "Query_time" || kv.1 = "Lock_time" || kv.1 = "Rows_sent" ||
          kv.1 = "Rows_examined") = true → (pyFloatD kv.2).isSome = true :=
      fun kv hkv => h kv (by simp [hkv])
    by_cases h1 : k = "Query_time"
    · subst h1
      obtain ⟨q, hq⟩ := Option.isSome_iff_exists.mp (h ("Query_time", v) (by simp) (by simp))
      obtain ⟨a2, hok, hts⟩ := ih ({ a with query_time := some q }) hrest
      exact ⟨a2, by simp only [applyPairs, if_pos rfl, hq]; exact hok, hts⟩
    · by_cases h2 : k = "Lock_time"
      · subst h2
        obtain ⟨q, hq⟩ := Option.isSome_iff_exists.mp (h ("Lock_time", v) (by simp) (by simp))
        obtain ⟨a2, hok, hts⟩ := ih ({ a with lock_time := some q }) hrest
        refine ⟨a2, ?_, hts⟩
        simp only [applyPairs, if_neg (by decide : ¬("Lock_time" = "Query_time")), if_pos rfl, hq]
        exact hok
      · by_cases h3 : k = "Rows_sent"
        · subst h3
          obtain ⟨q, hq⟩ := Option.isSome_iff_exists.mp (h ("Rows_sent", v) (by simp) (by simp))
          obtain ⟨a2, hok, hts⟩ := ih ({ a with rows_sent := some (decToPyInt q) }) hrest
          refine ⟨a2, ?_, hts⟩
          simp only [applyPairs, if_neg (by decide : ¬("Rows_sent" = "Query_time")),
            if_neg (by decide : ¬("Rows_sent" = "Lock_time")), if_pos rfl, hq]
          exact hok
        · by_cases h4 : k = "Rows_examined"
          · subst h4
            obtain ⟨q, hq⟩ :=
              Option.isSome_iff_exists.mp (h ("Rows_examined", v) (by simp) (by simp))
            obtain ⟨a2, hok, hts⟩ := ih ({ a with rows_examined := some (decToPyInt q) }) hrest
            refine ⟨a2, ?_, hts⟩
            simp only [applyPairs, if_neg (by decide : ¬("Rows_examined" = "Query_time")),
              if_neg (by decide : ¬("Rows_examined" = "Lock_time")),
              if_neg (by decide : ¬("Rows_examined" = "Rows_sent")), if_pos rfl, hq]
            exact hok
          · by_cases h5 : k = "Thread_id"
            · subst h5
              obtain ⟨a2, hok, hts⟩ := ih ({ a with thread_id := some v }) hrest
              refine ⟨a2, ?_, hts⟩
              simp only [applyPairs, if_neg (by decide : ¬("Thread_id" = "Query_time")),
                if_neg (by decide : ¬("Thread_id" = "Lock_time")),
                if_neg (by decide : ¬("Thread_id" = "Rows_sent")),
                if_neg (by decide : ¬("Thread_id" = "Rows_examined")), if_pos rfl]
              exact hok
            · obtain ⟨a2, hok, hts⟩ := ih a hrest
              refine ⟨a2, ?_, hts⟩
              simp only [applyPairs, if_neg h1, if_neg h2, if_neg h3, if_neg h4, if_neg h5]
              exact hok

theorem applySchema_timestamp (line : String) (a : Accum) :
    (applySchema line a).timestamp = a.timestamp := by
  unfold applySchema
  cases searchLit line "Schema:" isWordChar <;> rfl

theorem applyStartE_ok (line : String) (a : Accum)
    (h : (match searchLit line "Start:" (fun c => !isPySpace c) with
          | some v => (fromiso v).isSome
          | none => true) = true) :
    ∃ a2, applyStartE line a = .ok a2 ∧ a2.timestamp = a.timestamp := by
  unfold applyStartE
  cases hsv : searchLit line "Start:" (fun c => !isPySpace c) with
  | none => exact ⟨a, rfl, rfl⟩
  | some v =>
    rw [hsv] at h
    have h2 : (fromiso v).isSome = true := h
    obtain ⟨t, ht⟩ := Option.isSome_iff_exists.mp h2
    refine ⟨{ a with start_time := some t }, ?_, rfl⟩
    simp only [ht]

theorem applyEndE_ok (line : String) (a : Accum)
    (h : (match searchLit line "End:" (fun c => !isPySpace c) with
          | some v => (fromiso v).isSome
          | none => true) = true) :
    ∃ a2, applyEndE line a = .ok a2 ∧ a2.timestamp = a.timestamp := by
  unfold applyEndE
  cases hsv : searchLit line "End:" (fun c => !isPySpace c) with
  | none => exact ⟨a, rfl, rfl⟩
  | some v =>
    rw [hsv] at h
    have h2 : (fromiso v).isSome = true := h
    obtain ⟨t, ht⟩ := Option.isSome_iff_exists.mp h2
    refine ⟨{ a with end_time := some t }, ?_, rfl⟩
    simp only [ht]

theorem applyTimes_ok (line : String) (a : Accum)
    (hstart : (match searchLit line "Start:" (fun c => !isPySpace c) with
               | some v => (fromiso v).isSome
               | none => true) = true)
    (hend : (match searchLit line "End:" (fun c => !isPySpace c) with
             | some v => (fromiso v).isSome
             | none => true) = true) :
    ∃ a2, applyTimes line a = .ok a2 ∧ a2.timestamp = a.timestamp := by
  obtain ⟨a3, hok3, hts3⟩ := applyStartE_ok line (applySchema line a) hstart
  obtain ⟨a4, hok4, hts4⟩ := applyEndE_ok line a3 hend
  refine ⟨a4, ?_, ?_⟩
  · unfold applyTimes
    rw [hok3]
    exact hok4
  · rw [hts4, hts3, applySchema_timestamp]

theorem flushCur_naive (today : PDate) (st : PState)
    (hacc : ∀ r ∈ st.acc, r.timestamp.off = none)
    (hcur : ∀ a, st.cur = some a → a.timestamp.off = none) :
    ∀ r ∈ flushCur today st, r.timestamp.off = none := by
  unfold flushCur
  split
  · exact hacc
  · rename_i a heq
    split
    · exact hacc
    · split
      · intro r hr
        rcases List.mem_append.mp hr with h1 | h2
        · exact hacc r h1
        · have hre : r = createSlowQuery
              ({ a with sql_text := some (String.intercalate "\n" st.sql) }) := by
            simpa using h2
          rw [hre]
          exact hcur a heq
      · exact hacc

theorem stepLine_ok (today : PDate) (st : PState) (l : String)
    (hok : lineOk l = true)
    (hacc : ∀ r ∈ st.acc, r.timestamp.off = none)
    (hcur : ∀ a, st.cur = some a → a.timestamp.off = none) :
    ∃ st2, stepLine today st l = .ok st2 ∧
      (∀ r ∈ st2.acc, r.timestamp.off = none) ∧
      (∀ a, st2.cur = some a → a.timestamp.off = none) := by
  unfold lineOk at hok
  simp only [stepLine]
  by_cases h0 : (pyStrip l).data.isEmpty = true
  · rw [if_pos h0]
    exact ⟨st, rfl, hacc, hcur⟩
  · rw [if_neg h0] at hok ⊢
    by_cases h1 : strStartsWith (pyStrip l) "# Time:" = true
    · rw [if_pos h1] at hok ⊢
      unfold timeMarkerOk at hok
      cases hsp : splitOnSub (pyStrip l) "Time: " with
      | nil => rw [hsp] at hok; exact Bool.noConfusion hok
      | cons p0 ps =>
        cases ps with
        | nil => rw [hsp] at hok; exact Bool.noConfusion hok
        | cons p1 ps2 =>
          rw [hsp] at hok
          have hok2 : (match fromiso p1 with
              | some ts => ts.off.isNone
              | none => false) = true := hok
          cases hfi : fromiso p1 with
          | none => rw [hfi] at hok2; exact Bool.noConfusion hok2
          | some ts =>
            rw [hfi] at hok2
            have hnaive : ts.off = none := by
              have h3 : ts.off.isNone = true := hok2
              exact Option.isNone_iff_eq_none.mp h3
            refine ⟨⟨flushCur today st, some (initAccum ts), []⟩, ?_, ?_, ?_⟩
            · simp only [hfi]
            · exact flushCur_naive today st hacc hcur
            · intro a ha
              injection ha with ha2
              rw [← ha2]
              exact hnaive
    · rw [if_neg h1] at hok ⊢
      by_cases h2 : strStartsWith (pyStrip l) "# User@Host:" = true
      · rw [if_pos h2] at hok ⊢
        cases hc : st.cur with
        | none => exact ⟨st, rfl, hacc, hcur⟩
        | some a =>
          unfold userHostOk at hok
          cases hsp : splitOnSub (pyStrip l) "# User@Host: " with
          | nil => rw [hsp] at hok; exact Bool.noConfusion hok
          | cons p0 ps =>
            cases ps with
            | nil => rw [hsp] at hok; exact Bool.noConfusion hok
            | cons p1 ps2 =>
              refine ⟨{ st with cur := some { a with user_host := some p1 } }, ?_, hacc, ?_⟩
              · rfl
              · intro b hb
                injection hb with hb2
                rw [← hb2]
                exact hcur a hc
      · rw [if_neg h2] at hok ⊢
        by_cases h3 : strStartsWith (pyStrip l) "# Query_time:" = true
        · rw [if_pos h3] at hok ⊢
          cases hc : st.cur with
          | none => exact ⟨st, rfl, hacc, hcur⟩
          | some a =>
            unfold metricsOk at hok
            rw [Bool.and_eq_true, Bool.and_eq_true] at hok
            obtain ⟨⟨hpairs, hstart⟩, hend⟩ := hok
            have hpairs2 : ∀ kv ∈ findallKV (pyStrip l),
                (kv.1 = "Query_time" || kv.1 = "Lock_time" || kv.1 = "Rows_sent" ||
                  kv.1 = "Rows_examined") = true → (pyFloatD kv.2).isSome = true := by
              intro kv hkv hmetric
              have := List.all_eq_true.mp hpairs kv hkv
              rw [if_pos hmetric] at this
              exact this
            obtain ⟨a2, hok2, hts2⟩ := applyPairs_ok (findallKV (pyStrip l)) a hpairs2
            obtain ⟨a3, hok3, hts3⟩ := applyTimes_ok (pyStrip l) a2 hstart hend
            refine ⟨{ st with cur := some a3 }, ?_, hacc, ?_⟩
            · simp only [hok2, hok3]
            · intro b hb
              injection hb with hb2
              rw [← hb2, hts3, hts2]
              exact hcur a hc
        · rw [if_neg h3] at hok ⊢
          by_cases h4 : strStartsWith (pyStrip l) "# QC_Hit:" = true
          · rw [if_pos h4]
            cases hc : st.cur with
            | none => exact ⟨st, rfl, hacc, hcur⟩
            | some a =>
              refine ⟨_, rfl, hacc, ?_⟩
              intro b hb
              injection hb with hb2
              rw [← hb2]
              exact hcur a hc
          · rw [if_neg h4]
            by_cases h5 : (!strStartsWith (pyStrip l) "#" &&
                !strStartsWith (pyStrip l) "/usr/local/mysql/bin/mysqld" &&
                !strStartsWith (pyStrip l) "Tcp port:" &&
                !strStartsWith (pyStrip l) "Time                 Id Command") = true
            · rw [if_pos h5]
              by_cases h6 : (st.cur.isSome &&
                  !strStartsWith (pyStrip l) "SET timestamp=") = true
              · rw [if_pos h6]
                exact ⟨_, rfl, hacc, hcur⟩
              · rw [if_neg h6]
                exact ⟨st, rfl, hacc, hcur⟩
            · rw [if_neg h5]
              exact ⟨st, rfl, hacc, hcur⟩

theorem runLines_ok (today : PDate) :
    ∀ (lines : List String) (st : PState),
      (∀ l ∈ lines, lineOk l = true) →
      (∀ r ∈ st.acc, r.timestamp.off = none) →
      (∀ a, st.cur = some a → a.timestamp.off = none) →
      ∃ stF, runLines today st lines = .ok stF ∧
        (∀ r ∈ stF.acc, r.timestamp.off = none) ∧
        (∀ a, stF.cur = some a → a.timestamp.off = none) := by
  intro lines
  induction lines with
  | nil => intro st _ hacc hcur; exact ⟨st, rfl, hacc, hcur⟩
  | cons l rest ih =>
    intro st hlines hacc hcur
    obtain ⟨st1, hstep, hacc1, hcur1⟩ :=
      stepLine_ok today st l (hlines l (by simp)) hacc hcur
    obtain ⟨stF, hrun, haccF, hcurF⟩ :=
      ih st1 (fun l2 hl2 => hlines l2 (by simp [hl2])) hacc1 hcur1
    refine ⟨stF, ?_, haccF, hcurF⟩
    unfold runLines
    rw [hstep]
    exact hrun

theorem sortTsE_ok_of_naive (l : List SlowQuery)
    (h : ∀ r ∈ l, r.timestamp.off = none) :
    ∃ out, sortTsE l = .ok out := by
  refine ⟨sortByTs l, ?_⟩
  unfold sortTsE
  rw [if_pos]
  rw [Bool.or_eq_true]
  left
  rw [allNaiveTs, List.all_eq_true]
  intro r hr
  rw [Option.isNone_iff_eq_none]
  exact h r hr

/-- Claim C5 (counterexample): the parser does raise on a malformed single
line — a `# Time:` line whose remainder is not a parseable timestamp raises
`ValueError` from `fromisoformat`; a metric value such as `1.2.3` (matched
by the `[\d.]+` capture) raises `ValueError` from `float`; and a
`# User@Host:` line lacking the full `# User@Host: ` marker (with its
trailing space) raises `IndexError` from `line.split('# User@Host: ')[1]` —
each makes the whole parse fail rather than skipping the line. -/
theorem C5_counterexample :
    parseSlowLog ["# Time: garbage"] ⟨2024, 1, 1⟩ =
      .error "ValueError: invalid isoformat string" ∧
    parseSlowLog ["# Time: 2024-05-01T02:00:00",
        "# Query_time: 1.2.3  Lock_time: 0.000000 Rows_sent: 1  Rows_examined: 100",
        "SELECT 1;"] ⟨2024, 5, 1⟩ =
      .error "ValueError: could not convert string to float" ∧
    parseSlowLog ["# Time: 2024-05-01T02:00:00", "# User@Host:"] ⟨2024, 5, 1⟩ =
      .error "IndexError: list index out of range" :=
  ⟨rfl, rfl, rfl⟩

/-- Claim C5 (amended): the parser terminates without raising on every input
whose `# Time:` lines carry parseable (timezone-naive, as in real slow logs)
timestamps, whose `# User@Host:` lines contain the full marker, and whose
metric and Start/End values convert; in particular missing metadata lines,
multi-line SQL text and boilerplate noise never cause a throw.  A malformed
`# Time:` line or an unconvertible metric/Start/End value, however, raises
(the exception is caught by `process_instance`, not inside the parser). -/
theorem C5_amended :
    ∀ (lines : List String) (today : PDate),
      (∀ l ∈ lines, lineOk l = true) →
      ∃ out, parseSlowLog lines today = .ok out := by
  intro lines today hlines
  obtain ⟨stF, hrun, haccF, hcurF⟩ :=
    runLines_ok today lines ⟨[], none, []⟩ hlines
      (by intro r hr; cases hr) (by intro a ha; cases ha)
  obtain ⟨out, hsort⟩ :=
    sortTsE_ok_of_naive (flushCur today stF) (flushCur_naive today stF haccF hcurF)
  refine ⟨out, ?_⟩
  unfold parseSlowLog
  rw [hrun]
  exact hsort

/-- Claim C5 witness: the amended statement applied to the concrete
well-formed example file. -/
theorem C5_amended_witness :
    (parseSlowLog exLines ⟨2024, 5, 1⟩).isOk = true := by
  obtain ⟨out, hout⟩ := C5_amended exLines ⟨2024, 5, 1⟩ (by decide)
  rw [hout]
  rfl
